import Mathlib

/-!
Verification of the `asyncBatch` bounded-concurrency batch runner of
bodhi-async-batch, embedded shallowly from `src/src/index.ts` (namespace `TS`)
and `src/src/index.js` (namespace `JS`).

Modelling conventions:
* JavaScript runtime values that may flow through the runner are modelled by
  `JSValue`; `Error` instances carry their `message`, and the dynamic
  `instanceof Error` test is `isError`.
* A task `() => Promise<T>` is modelled by the outcome it eventually settles
  with (`TaskSpec.resolve v` or `TaskSpec.reject e`).  Tasks always settle
  asynchronously, matching their declared promise-returning type, so the
  synchronous part of `processTask` (the early-return guard, `processing.add`
  and the invocation of the task) runs for every wave member before any
  settlement.
* The nondeterministic real-time order in which the promises of one wave
  settle is a parameter `sched : Nat -> List Nat -> List Nat` giving, for each
  wave number and wave member list, the settlement order (assumed to be a
  permutation of the wave).
* The observable side effects (task invocations, task settlements, and
  `onProgress` calls) are recorded in an event trace inside the run state.
* The outer `while` loop of the source is driven by explicit fuel, because for
  `concurrency <= 0` the source loops forever (nothing is ever admitted);
  a result of `none` means the loop did not terminate within the given fuel.
-/

/-- A JavaScript runtime value as far as the runner inspects it:
an `Error` instance (with its `message`), a number, or a string. -/
inductive JSValue where
  | error (message : String)
  | num (n : Int)
  | str (s : String)
deriving Repr, DecidableEq

/-- The dynamic `value instanceof Error` test. -/
def isError : JSValue → Bool
  | JSValue.error _ => true
  | _ => false

/-- JavaScript `String(value)` coercion for the values the runner coerces. -/
def jsString : JSValue → String
  | JSValue.error m => "Error: " ++ m
  | JSValue.num n => toString n
  | JSValue.str s => s

/-- `error instanceof Error ? error : new Error(String(error))`
(source lines 44 and 47-48). -/
def coerceError (e : JSValue) : JSValue :=
  if isError e then e else JSValue.error (jsString e)

/-- Reading `.message` of a value.  On a non-`Error` value the property is
`undefined`, which `Array.prototype.join` renders as the empty string. -/
def errMessage : JSValue → String
  | JSValue.error m => m
  | _ => ""

/-- The model of one task `() => Promise<T>`: the settled outcome the promise
it returns eventually produces. -/
inductive TaskSpec where
  | resolve (v : JSValue)
  | reject (e : JSValue)
deriving Repr, DecidableEq

/-- Whether a task rejects. -/
def taskIsReject : TaskSpec → Bool
  | TaskSpec.reject _ => true
  | TaskSpec.resolve _ => false

/-- The value `processTask` stores in `results[taskIndex]` for task `i` when
the run is not aborted: the resolved value, or the coerced rejection error.
The out-of-range case mirrors the source's
`throw new Error("Task at index ... is undefined")`, which is caught by the
`catch` of `processTask`; it is unreachable for waves drawn from
`List.range tasks.length`. -/
def settledValue (tasks : List TaskSpec) (i : Nat) : JSValue :=
  match tasks[i]? with
  | some (TaskSpec.resolve v) => v
  | some (TaskSpec.reject e) => coerceError e
  | none => JSValue.error ("Task at index " ++ toString i ++ " is undefined")

/-- Observable events of a run: a task invocation, a task settlement
(the moment its continuation inside `processTask` runs), and a call of the
`onProgress` callback with its two arguments. -/
inductive Event where
  | invoke (i : Nat)
  | settle (i : Nat)
  | progress (completed : Nat) (total : Nat)
deriving Repr, DecidableEq

/-- The `onProgress` call trace of an event trace. -/
def progressCalls (es : List Event) : List (Nat × Nat) :=
  es.filterMap fun e =>
    match e with
    | Event.progress c t => some (c, t)
    | _ => none

/-- The task invocations of an event trace, in order. -/
def invokesOf (es : List Event) : List Nat :=
  es.filterMap fun e =>
    match e with
    | Event.invoke i => some i
    | _ => none

/-- The task settlements of an event trace, in order. -/
def settlesOf (es : List Event) : List Nat :=
  es.filterMap fun e =>
    match e with
    | Event.settle i => some i
    | _ => none

/-- The mutable state of one `asyncBatch` invocation (source lines 19-28):
`results`, `completed`, `failed`, `firstError` and the `processing` set,
plus the recorded observable event trace.  A `results` slot of `none` is an
unset array hole.  The `inProgress` set is not part of the state: it is empty
at the start of every wave, holds exactly the wave during it, and is emptied
again by the `finally` blocks, so it is determined by the loop position. -/
structure RunState where
  results : List (Option JSValue)
  completed : Nat
  failed : Bool
  firstError : Option JSValue
  processing : List Nat
  events : List Event
deriving Repr, DecidableEq

/-- The fresh state built at the start of `asyncBatch`
(`new Array(total)` is all holes). -/
def initSt (total : Nat) : RunState :=
  { results := List.replicate total none
    completed := 0
    failed := false
    firstError := none
    processing := []
    events := [] }

/-- The outcome of a run: the returned `results` array, or a thrown error. -/
inductive BatchResult where
  | ok (results : List (Option JSValue))
  | thrown (e : JSValue)
deriving Repr, DecidableEq

/-- The recognized option fields with their defaults (source line 17).
The `onProgress` callback itself is not part of the state: its call trace is
recorded in the events unconditionally, and supplying or omitting the callback
changes nothing else. -/
structure AsyncBatchOptions where
  concurrency : Int := 5
  failFast : Bool := false
deriving Repr, DecidableEq

namespace TS

/-- The synchronous part of each `processTask` call of one wave
(source lines 30-32): the early-return guard and `processing.add`, followed by
the invocation of the task.  All of these run, in index order, before any task
of the wave settles.  Returns the new state and the list of task indices that
actually started. -/
def startTasks (st : RunState) : List Nat → RunState × List Nat
  | [] => (st, [])
  | i :: rest =>
      if st.failed || st.processing.contains i then startTasks st rest
      else
        let st1 := { st with
            processing := i :: st.processing
            events := st.events ++ [Event.invoke i] }
        let p := startTasks st1 rest
        (p.1, i :: p.2)

/-- The continuation of `processTask` that runs when task `i` settles
(source lines 34-55): the write of the result or the `catch` branch, followed
by the `finally` block.  `inProgress.delete(taskIndex)` has no further
observable effect and is not modelled. -/
def settleTask (tasks : List TaskSpec) (failFast : Bool) (total : Nat)
    (st : RunState) (i : Nat) : RunState :=
  let st0 := { st with events := st.events ++ [Event.settle i] }
  let st1 :=
    match tasks[i]? with
    | some (TaskSpec.resolve v) =>
        if st0.failed then st0
        else { st0 with results := st0.results.set i (some v) }
    | some (TaskSpec.reject e) =>
        if failFast then
          { st0 with failed := true, firstError := some (coerceError e) }
        else
          { st0 with results := st0.results.set i (some (coerceError e)) }
    | none =>
        if failFast then
          { st0 with
              failed := true
              firstError := some (JSValue.error
                ("Task at index " ++ toString i ++ " is undefined")) }
        else
          { st0 with results := st0.results.set i (some (JSValue.error
              ("Task at index " ++ toString i ++ " is undefined"))) }
  if st1.failed then st1
  else
    { st1 with
        completed := st1.completed + 1
        events := st1.events ++ [Event.progress (st1.completed + 1) total] }

/-- One wave: `await Promise.all(Array.from(inProgress).map(processTask))`
(source line 67; `Array.from` of the `inProgress` set yields the wave in
insertion order, which is ascending index order).  The synchronous starts run
first in index order; then the settlements run in the order `order` (the
real-time completion order of the promises); a wave member that did not start
settles immediately with no effect. -/
def settleAll (tasks : List TaskSpec) (failFast : Bool) (total : Nat)
    (started : List Nat) : List Nat → RunState → RunState
  | [], st => st
  | i :: rest, st =>
      settleAll tasks failFast total started rest
        (if started.contains i then settleTask tasks failFast total st i else st)

def runWave (tasks : List TaskSpec) (failFast : Bool) (total : Nat)
    (order : List Nat) (wave : List Nat) (st : RunState) : RunState :=
  let p := startTasks st wave
  settleAll tasks failFast total p.2 order p.1

/-- The code after the dispatch loop (source lines 76-83): the all-failed
check (`Array.prototype.every` skips array holes, so a hole counts as
passing) and the aggregate throw or the return of `results`. -/
def finishRun (st : RunState) : BatchResult :=
  let allFailed := st.results.all fun slot =>
    match slot with
    | some v => isError v
    | none => true
  if allFailed then
    BatchResult.thrown (JSValue.error
      ("All tasks failed to execute: " ++
        String.intercalate ", " (st.results.map fun slot =>
          match slot with
          | some v => errMessage v
          | none => "")))
  else BatchResult.ok st.results

/-- The outer dispatch loop (source lines 58-73) plus the code after it.
Each iteration fills the batch from the front of `queue`
(`while (inProgress.size < concurrency && queue.length > 0 && !failed)`),
runs the wave if it is non-empty, and rethrows `firstError` when the wave
aborted.  `fuel` bounds the number of iterations; `none` means the loop did
not finish within the fuel (with `concurrency <= 0` and a non-empty queue the
source loops forever, admitting nothing). -/
def runLoop (tasks : List TaskSpec) (conc : Int) (failFast : Bool)
    (sched : Nat → List Nat → List Nat) (fuel : Nat) (waveNo : Nat)
    (queue : List Nat) (st : RunState) : Option (BatchResult × RunState) :=
  match fuel with
  | 0 => none
  | fuel' + 1 =>
    if queue.isEmpty || st.failed then
      some (finishRun st, st)
    else
      let k := min queue.length conc.toNat
      if k = 0 then
        runLoop tasks conc failFast sched fuel' waveNo queue st
      else
        let wave := queue.take k
        let st' := runWave tasks failFast tasks.length (sched waveNo wave) wave st
        if st'.failed then
          match st'.firstError with
          | some e => some (BatchResult.thrown e, st')
          | none =>
              runLoop tasks conc failFast sched fuel' (waveNo + 1)
                (queue.drop k) st'
        else
          runLoop tasks conc failFast sched fuel' (waveNo + 1)
            (queue.drop k) st'

/-- `asyncBatch` (source lines 13-84): build the queue of task indices and the
fresh run state, then run the dispatch loop. -/
def asyncBatch (tasks : List TaskSpec) (options : AsyncBatchOptions)
    (sched : Nat → List Nat → List Nat) (fuel : Nat) :
    Option (BatchResult × RunState) :=
  runLoop tasks options.concurrency options.failFast sched fuel 0
    (List.range tasks.length) (initSt tasks.length)

end TS

namespace JS

/-- The synchronous part of each `processTask` call of one wave
(`src/src/index.js` lines 32-34): the early-return guard and
`processing.add`, followed by the invocation of the task. -/
def startTasks (st : RunState) : List Nat → RunState × List Nat
  | [] => (st, [])
  | i :: rest =>
      if st.failed || st.processing.contains i then startTasks st rest
      else
        let st1 := { st with
            processing := i :: st.processing
            events := st.events ++ [Event.invoke i] }
        let p := startTasks st1 rest
        (p.1, i :: p.2)

/-- The continuation of `processTask` that runs when task `i` settles
(`src/src/index.js` lines 36-56).  The only textual difference from the
TypeScript version is `if (onProgress) onProgress(completed, total)` in place
of `onProgress?.(completed, total)`, which is behaviourally identical. -/
def settleTask (tasks : List TaskSpec) (failFast : Bool) (total : Nat)
    (st : RunState) (i : Nat) : RunState :=
  let st0 := { st with events := st.events ++ [Event.settle i] }
  let st1 :=
    match tasks[i]? with
    | some (TaskSpec.resolve v) =>
        if st0.failed then st0
        else { st0 with results := st0.results.set i (some v) }
    | some (TaskSpec.reject e) =>
        if failFast then
          { st0 with failed := true, firstError := some (coerceError e) }
        else
          { st0 with results := st0.results.set i (some (coerceError e)) }
    | none =>
        if failFast then
          { st0 with
              failed := true
              firstError := some (JSValue.error
                ("Task at index " ++ toString i ++ " is undefined")) }
        else
          { st0 with results := st0.results.set i (some (JSValue.error
              ("Task at index " ++ toString i ++ " is undefined"))) }
  if st1.failed then st1
  else
    { st1 with
        completed := st1.completed + 1
        events := st1.events ++ [Event.progress (st1.completed + 1) total] }

/-- One wave: `await Promise.all(Array.from(inProgress).map(processTask))`
(`src/src/index.js` lines 68-70). -/
def settleAll (tasks : List TaskSpec) (failFast : Bool) (total : Nat)
    (started : List Nat) : List Nat → RunState → RunState
  | [], st => st
  | i :: rest, st =>
      settleAll tasks failFast total started rest
        (if started.contains i then settleTask tasks failFast total st i else st)

def runWave (tasks : List TaskSpec) (failFast : Bool) (total : Nat)
    (order : List Nat) (wave : List Nat) (st : RunState) : RunState :=
  let p := startTasks st wave
  settleAll tasks failFast total p.2 order p.1

/-- The code after the dispatch loop (`src/src/index.js` lines 79-86). -/
def finishRun (st : RunState) : BatchResult :=
  let allFailed := st.results.all fun slot =>
    match slot with
    | some v => isError v
    | none => true
  if allFailed then
    BatchResult.thrown (JSValue.error
      ("All tasks failed to execute: " ++
        String.intercalate ", " (st.results.map fun slot =>
          match slot with
          | some v => errMessage v
          | none => "")))
  else BatchResult.ok st.results

/-- The outer dispatch loop (`src/src/index.js` lines 59-76) plus the code
after it. -/
def runLoop (tasks : List TaskSpec) (conc : Int) (failFast : Bool)
    (sched : Nat → List Nat → List Nat) (fuel : Nat) (waveNo : Nat)
    (queue : List Nat) (st : RunState) : Option (BatchResult × RunState) :=
  match fuel with
  | 0 => none
  | fuel' + 1 =>
    if queue.isEmpty || st.failed then
      some (finishRun st, st)
    else
      let k := min queue.length conc.toNat
      if k = 0 then
        runLoop tasks conc failFast sched fuel' waveNo queue st
      else
        let wave := queue.take k
        let st' := runWave tasks failFast tasks.length (sched waveNo wave) wave st
        if st'.failed then
          match st'.firstError with
          | some e => some (BatchResult.thrown e, st')
          | none =>
              runLoop tasks conc failFast sched fuel' (waveNo + 1)
                (queue.drop k) st'
        else
          runLoop tasks conc failFast sched fuel' (waveNo + 1)
            (queue.drop k) st'

/-- `asyncBatch` (`src/src/index.js` lines 14-87). -/
def asyncBatch (tasks : List TaskSpec) (options : AsyncBatchOptions)
    (sched : Nat → List Nat → List Nat) (fuel : Nat) :
    Option (BatchResult × RunState) :=
  runLoop tasks options.concurrency options.failFast sched fuel 0
    (List.range tasks.length) (initSt tasks.length)

end JS

/-! ### Helper lemmas about the embedded runner (stated for the TS embedding;
the JS embedding is definitionally equal sub-definition by sub-definition). -/

/-- A settlement schedule is valid when every wave settles in some order that
is a permutation of the wave. -/
def schedValid (sched : Nat → List Nat → List Nat) : Prop :=
  ∀ w l, (sched w l).Perm l

lemma contains_true {l : List Nat} {a : Nat} : l.contains a = true ↔ a ∈ l :=
  List.elem_iff

lemma settleTask_resolve {tasks : List TaskSpec} {i : Nat} {v : JSValue}
    (ff : Bool) (total : Nat) (st : RunState)
    (h : tasks[i]? = some (TaskSpec.resolve v)) (hf : st.failed = false) :
    TS.settleTask tasks ff total st i =
      { st with
          results := st.results.set i (some v)
          completed := st.completed + 1
          events := st.events ++
            [Event.settle i, Event.progress (st.completed + 1) total] } := by
  cases st
  simp_all [TS.settleTask]

lemma settleTask_reject_continue {tasks : List TaskSpec} {i : Nat} {e : JSValue}
    (total : Nat) (st : RunState)
    (h : tasks[i]? = some (TaskSpec.reject e)) (hf : st.failed = false) :
    TS.settleTask tasks false total st i =
      { st with
          results := st.results.set i (some (coerceError e))
          completed := st.completed + 1
          events := st.events ++
            [Event.settle i, Event.progress (st.completed + 1) total] } := by
  cases st
  simp_all [TS.settleTask]

lemma settleTask_reject_abort {tasks : List TaskSpec} {i : Nat} {e : JSValue}
    (total : Nat) (st : RunState)
    (h : tasks[i]? = some (TaskSpec.reject e)) :
    TS.settleTask tasks true total st i =
      { st with
          failed := true
          firstError := some (coerceError e)
          events := st.events ++ [Event.settle i] } := by
  cases st
  simp_all [TS.settleTask]

lemma settleTask_oob_continue {tasks : List TaskSpec} {i : Nat}
    (total : Nat) (st : RunState)
    (h : tasks[i]? = none) (hf : st.failed = false) :
    TS.settleTask tasks false total st i =
      { st with
          results := st.results.set i (some (JSValue.error
            ("Task at index " ++ toString i ++ " is undefined")))
          completed := st.completed + 1
          events := st.events ++
            [Event.settle i, Event.progress (st.completed + 1) total] } := by
  unfold TS.settleTask
  rw [h]
  cases st
  simp_all

lemma settleTask_failed_mono {tasks : List TaskSpec} {ff : Bool} {total i : Nat}
    {st : RunState} (hf : st.failed = true) :
    (TS.settleTask tasks ff total st i).failed = true := by
  cases st
  simp only [TS.settleTask]
  cases h : tasks[i]? with
  | none => split_ifs <;> simp_all
  | some t => cases t <;> split_ifs <;> simp_all

lemma settleTask_firstError_mono {tasks : List TaskSpec} {ff : Bool}
    {total i : Nat} {st : RunState} (hf : st.firstError.isSome = true) :
    (TS.settleTask tasks ff total st i).firstError.isSome = true := by
  cases st
  simp only [TS.settleTask]
  cases h : tasks[i]? with
  | none => split_ifs <;> simp_all
  | some t => cases t <;> split_ifs <;> simp_all

lemma settleTask_failed_firstError {tasks : List TaskSpec} {ff : Bool}
    {total i : Nat} {st : RunState} (hf : st.failed = false)
    (hset : (TS.settleTask tasks ff total st i).failed = true) :
    (TS.settleTask tasks ff total st i).firstError.isSome = true := by
  cases st
  simp only [TS.settleTask] at hset ⊢
  cases h : tasks[i]? with
  | none => rw [h] at hset; split_ifs at hset ⊢ <;> simp_all
  | some t =>
      rw [h] at hset
      cases t <;> split_ifs at hset ⊢ <;> simp_all

lemma settleTask_continue_failed {tasks : List TaskSpec} {total i : Nat}
    {st : RunState} :
    (TS.settleTask tasks false total st i).failed = st.failed := by
  cases st
  simp only [TS.settleTask]
  cases h : tasks[i]? with
  | none => split_ifs <;> simp_all
  | some t => cases t <;> split_ifs <;> simp_all

lemma settleTask_discard (tasks : List TaskSpec) (total i : Nat)
    {st : RunState} (hf : st.failed = true) :
    (TS.settleTask tasks true total st i).results = st.results ∧
      (TS.settleTask tasks true total st i).completed = st.completed ∧
      (TS.settleTask tasks true total st i).events =
        st.events ++ [Event.settle i] ∧
      (TS.settleTask tasks true total st i).processing = st.processing := by
  cases st
  simp only [TS.settleTask]
  cases h : tasks[i]? with
  | none => split_ifs <;> simp_all
  | some t => cases t <;> split_ifs <;> simp_all

lemma settleTask_processing {tasks : List TaskSpec} {ff : Bool} {total i : Nat}
    {st : RunState} :
    (TS.settleTask tasks ff total st i).processing = st.processing := by
  cases st
  simp only [TS.settleTask]
  cases h : tasks[i]? with
  | none => split_ifs <;> simp_all
  | some t => cases t <;> split_ifs <;> simp_all

lemma startTasks_eq {wave : List Nat} :
    ∀ st : RunState, st.failed = false →
      (∀ i ∈ wave, i ∉ st.processing) → wave.Nodup →
      TS.startTasks st wave =
        ({ st with
            processing := wave.reverse ++ st.processing
            events := st.events ++ wave.map Event.invoke },
          wave) := by
  induction wave with
  | nil => intro st _ _ _; simp [TS.startTasks]
  | cons a w ih =>
      intro st hf hp hnd
      have ha : st.processing.contains a = false := by
        rw [Bool.eq_false_iff]
        intro hc
        exact hp a (List.mem_cons_self a w) (contains_true.mp hc)
      rw [List.nodup_cons] at hnd
      rw [TS.startTasks, hf, ha]
      simp only [Bool.or_self, Bool.false_eq_true, if_false]
      rw [ih _ rfl ?fresh hnd.2]
      case fresh =>
        intro i hi
        simp only [List.mem_cons, not_or]
        exact ⟨fun he => hnd.1 (he ▸ hi), hp i (List.mem_cons_of_mem a hi)⟩
      cases st
      simp

lemma startTasks_ts_eq_js : ∀ (wave : List Nat) (st : RunState),
    TS.startTasks st wave = JS.startTasks st wave := by
  intro wave
  induction wave with
  | nil => intro st; rfl
  | cons a w ih =>
      intro st
      rw [TS.startTasks, JS.startTasks]
      simp only [ih]

lemma settleAll_ts_eq_js (tasks : List TaskSpec) (ff : Bool) (total : Nat)
    (started : List Nat) : ∀ (order : List Nat) (st : RunState),
    TS.settleAll tasks ff total started order st =
      JS.settleAll tasks ff total started order st := by
  intro order
  induction order with
  | nil => intro st; rfl
  | cons a w ih =>
      intro st
      rw [TS.settleAll, JS.settleAll]
      rw [show TS.settleTask = JS.settleTask from rfl]
      simp only [ih]

lemma runWave_ts_eq_js (tasks : List TaskSpec) (ff : Bool) (total : Nat)
    (order wave : List Nat) (st : RunState) :
    TS.runWave tasks ff total order wave st =
      JS.runWave tasks ff total order wave st := by
  rw [TS.runWave, JS.runWave, startTasks_ts_eq_js, settleAll_ts_eq_js]

lemma runLoop_ts_eq_js (tasks : List TaskSpec) (conc : Int) (ff : Bool)
    (sched : Nat → List Nat → List Nat) :
    ∀ (fuel waveNo : Nat) (queue : List Nat) (st : RunState),
      TS.runLoop tasks conc ff sched fuel waveNo queue st =
        JS.runLoop tasks conc ff sched fuel waveNo queue st := by
  intro fuel
  induction fuel with
  | zero => intro waveNo queue st; rfl
  | succ n ih =>
      intro waveNo queue st
      unfold TS.runLoop JS.runLoop
      rw [show TS.finishRun = JS.finishRun from rfl]
      simp only [runWave_ts_eq_js, ih]

lemma settleAll_eq_fold {tasks : List TaskSpec} {ff : Bool} {total : Nat}
    {started : List Nat} : ∀ (order : List Nat) (st : RunState),
    (∀ i ∈ order, i ∈ started) →
    TS.settleAll tasks ff total started order st =
      order.foldl (TS.settleTask tasks ff total) st := by
  intro order
  induction order with
  | nil => intro st _; rfl
  | cons a w ih =>
      intro st h
      rw [TS.settleAll, List.foldl_cons]
      rw [contains_true.mpr (h a (List.mem_cons_self a w))]
      simp only [if_true]
      exact ih _ fun i hi => h i (List.mem_cons_of_mem a hi)

lemma settleTask_clean_step {tasks : List TaskSpec} {ff : Bool} {total i : Nat}
    {st : RunState} (hf : st.failed = false)
    (hres : ff = false ∨ ∃ v, tasks[i]? = some (TaskSpec.resolve v)) :
    TS.settleTask tasks ff total st i =
      { st with
          results := st.results.set i (some (settledValue tasks i))
          completed := st.completed + 1
          events := st.events ++
            [Event.settle i, Event.progress (st.completed + 1) total] } := by
  rcases hres with hff | ⟨v, hv⟩
  · subst hff
    cases h : tasks[i]? with
    | none =>
        rw [settleTask_oob_continue total st h hf]
        rw [settledValue, h]
    | some t =>
        cases t with
        | resolve v =>
            rw [settleTask_resolve false total st h hf]
            rw [settledValue, h]
        | reject e =>
            rw [settleTask_reject_continue total st h hf]
            rw [settledValue, h]
  · rw [settleTask_resolve ff total st hv hf]
    rw [settledValue, hv]

lemma progressCalls_append (es1 es2 : List Event) :
    progressCalls (es1 ++ es2) = progressCalls es1 ++ progressCalls es2 :=
  List.filterMap_append es1 es2 _

lemma invokesOf_append (es1 es2 : List Event) :
    invokesOf (es1 ++ es2) = invokesOf es1 ++ invokesOf es2 :=
  List.filterMap_append es1 es2 _

lemma settlesOf_append (es1 es2 : List Event) :
    settlesOf (es1 ++ es2) = settlesOf es1 ++ settlesOf es2 :=
  List.filterMap_append es1 es2 _

lemma foldSettle_clean {tasks : List TaskSpec} {ff : Bool} {total : Nat} :
    ∀ (order : List Nat) (st : RunState),
      st.failed = false →
      (∀ i ∈ order, ff = false ∨ ∃ v, tasks[i]? = some (TaskSpec.resolve v)) →
      (order.foldl (TS.settleTask tasks ff total) st).failed = false ∧
      (order.foldl (TS.settleTask tasks ff total) st).firstError =
        st.firstError ∧
      (order.foldl (TS.settleTask tasks ff total) st).processing =
        st.processing ∧
      (order.foldl (TS.settleTask tasks ff total) st).results.length =
        st.results.length ∧
      (∀ j, j < st.results.length →
        (order.foldl (TS.settleTask tasks ff total) st).results[j]? =
          if j ∈ order then some (some (settledValue tasks j))
          else st.results[j]?) ∧
      (order.foldl (TS.settleTask tasks ff total) st).completed =
        st.completed + order.length ∧
      progressCalls (order.foldl (TS.settleTask tasks ff total) st).events =
        progressCalls st.events ++
          (List.range' (st.completed + 1) order.length).map
            (fun c => (c, total)) := by
  intro order
  induction order with
  | nil =>
      intro st hf _
      refine ⟨hf, rfl, rfl, rfl, ?_, by simp, by simp⟩
      intro j hj
      simp
  | cons a w ih =>
      intro st hf hres
      rw [List.foldl_cons]
      rw [settleTask_clean_step hf (hres a (List.mem_cons_self a w))]
      obtain ⟨c1, c2, c3, c4, c5, c6, c7⟩ :=
        ih { st with
              results := st.results.set a (some (settledValue tasks a))
              completed := st.completed + 1
              events := st.events ++
                [Event.settle a, Event.progress (st.completed + 1) total] }
          hf (fun i hi => hres i (List.mem_cons_of_mem a hi))
      refine ⟨c1, c2, c3, ?_, ?_, ?_, ?_⟩
      · rw [c4]
        exact List.length_set st.results a _ ▸ rfl
      · intro j hj
        have hj2 : j < (st.results.set a
            (some (settledValue tasks a))).length := by
          rw [List.length_set]
          exact hj
        rw [c5 j hj2]
        by_cases hjw : j ∈ w
        · rw [if_pos hjw, if_pos (List.mem_cons_of_mem a hjw)]
        · by_cases hja : j = a
          · subst hja
            rw [if_neg hjw, if_pos (List.mem_cons_self j w)]
            exact List.getElem?_set_eq hj
          · have hne : ¬ j ∈ a :: w := by
              simp [List.mem_cons, hja, hjw]
            rw [if_neg hjw, if_neg hne]
            exact List.getElem?_set_ne (fun he => hja he.symm)
      · rw [c6]
        show st.completed + 1 + w.length = st.completed + (w.length + 1)
        omega
      · rw [c7]
        show progressCalls (st.events ++ [Event.settle a,
            Event.progress (st.completed + 1) total]) ++
            (List.range' (st.completed + 1 + 1) w.length).map
              (fun c => (c, total)) =
          progressCalls st.events ++
            (List.range' (st.completed + 1) (w.length + 1)).map
              (fun c => (c, total))
        rw [progressCalls_append]
        rw [show progressCalls [Event.settle a,
            Event.progress (st.completed + 1) total] =
            [(st.completed + 1, total)] by simp [progressCalls]]
        rw [show List.range' (st.completed + 1) (w.length + 1) =
            (st.completed + 1) :: List.range' (st.completed + 1 + 1) w.length
            from rfl]
        simp

lemma progressCalls_invokes (l : List Nat) :
    progressCalls (l.map Event.invoke) = [] := by
  induction l with
  | nil => rfl
  | cons a w ih => simp_all [progressCalls]

lemma invokesOf_invokes (l : List Nat) :
    invokesOf (l.map Event.invoke) = l := by
  induction l with
  | nil => rfl
  | cons a w ih => simp_all [invokesOf]

lemma settlesOf_invokes (l : List Nat) :
    settlesOf (l.map Event.invoke) = [] := by
  induction l with
  | nil => rfl
  | cons a w ih => simp_all [settlesOf]

lemma runWave_clean {tasks : List TaskSpec} {ff : Bool} (total : Nat)
    {order wave : List Nat} {st : RunState}
    (hf : st.failed = false) (hnd : wave.Nodup)
    (hfresh : ∀ i ∈ wave, i ∉ st.processing)
    (hperm : order.Perm wave)
    (hres : ∀ i ∈ order,
      ff = false ∨ ∃ v, tasks[i]? = some (TaskSpec.resolve v)) :
    (TS.runWave tasks ff total order wave st).failed = false ∧
    (TS.runWave tasks ff total order wave st).firstError = st.firstError ∧
    (TS.runWave tasks ff total order wave st).processing =
      wave.reverse ++ st.processing ∧
    (TS.runWave tasks ff total order wave st).results.length =
      st.results.length ∧
    (∀ j, j < st.results.length →
      (TS.runWave tasks ff total order wave st).results[j]? =
        if j ∈ wave then some (some (settledValue tasks j))
        else st.results[j]?) ∧
    (TS.runWave tasks ff total order wave st).completed =
      st.completed + wave.length ∧
    progressCalls (TS.runWave tasks ff total order wave st).events =
      progressCalls st.events ++
        (List.range' (st.completed + 1) wave.length).map
          (fun c => (c, total)) := by
  have hsub : ∀ i ∈ order, i ∈ wave := fun i hi => hperm.subset hi
  rw [TS.runWave]
  simp only [startTasks_eq st hf hfresh hnd]
  rw [settleAll_eq_fold order _ hsub]
  obtain ⟨c1, c2, c3, c4, c5, c6, c7⟩ := foldSettle_clean order
    { st with
        processing := wave.reverse ++ st.processing
        events := st.events ++ wave.map Event.invoke }
    hf hres
  refine ⟨c1, c2, c3, c4, ?_, ?_, ?_⟩
  · intro j hj
    rw [c5 j hj]
    by_cases hjw : j ∈ wave
    · rw [if_pos (hperm.mem_iff.mpr hjw), if_pos hjw]
    · rw [if_neg (fun ho => hjw (hsub j ho)), if_neg hjw]
  · rw [c6, hperm.length_eq]
  · rw [c7]
    show progressCalls (st.events ++ wave.map Event.invoke) ++
        (List.range' (st.completed + 1) order.length).map
          (fun c => (c, total)) = _
    rw [progressCalls_append, progressCalls_invokes, List.append_nil,
      hperm.length_eq]

lemma runLoop_succ (tasks : List TaskSpec) (conc : Int) (ff : Bool)
    (sched : Nat → List Nat → List Nat) (n waveNo : Nat) (queue : List Nat)
    (st : RunState) :
    TS.runLoop tasks conc ff sched (n + 1) waveNo queue st =
      if queue.isEmpty || st.failed then some (TS.finishRun st, st)
      else if min queue.length conc.toNat = 0 then
        TS.runLoop tasks conc ff sched n waveNo queue st
      else if (TS.runWave tasks ff tasks.length
          (sched waveNo (queue.take (min queue.length conc.toNat)))
          (queue.take (min queue.length conc.toNat)) st).failed then
        match (TS.runWave tasks ff tasks.length
            (sched waveNo (queue.take (min queue.length conc.toNat)))
            (queue.take (min queue.length conc.toNat)) st).firstError with
        | some e => some (BatchResult.thrown e,
            TS.runWave tasks ff tasks.length
              (sched waveNo (queue.take (min queue.length conc.toNat)))
              (queue.take (min queue.length conc.toNat)) st)
        | none =>
            TS.runLoop tasks conc ff sched n (waveNo + 1)
              (queue.drop (min queue.length conc.toNat))
              (TS.runWave tasks ff tasks.length
                (sched waveNo (queue.take (min queue.length conc.toNat)))
                (queue.take (min queue.length conc.toNat)) st)
      else
        TS.runLoop tasks conc ff sched n (waveNo + 1)
          (queue.drop (min queue.length conc.toNat))
          (TS.runWave tasks ff tasks.length
            (sched waveNo (queue.take (min queue.length conc.toNat)))
            (queue.take (min queue.length conc.toNat)) st) :=
  rfl

lemma runLoop_zero (tasks : List TaskSpec) (conc : Int) (ff : Bool)
    (sched : Nat → List Nat → List Nat) (waveNo : Nat) (queue : List Nat)
    (st : RunState) :
    TS.runLoop tasks conc ff sched 0 waveNo queue st = none :=
  rfl


lemma range'_split (m : Nat) : ∀ (s n : Nat),
    List.range' s (m + n) = List.range' s m ++ List.range' (s + m) n := by
  induction m with
  | zero => intro s n; simp
  | succ m ih =>
      intro s n
      rw [show m + 1 + n = (m + n) + 1 by omega]
      rw [show List.range' s (m + n + 1) =
        s :: List.range' (s + 1) (m + n) from rfl]
      rw [ih (s + 1) n]
      rw [show List.range' s (m + 1) = s :: List.range' (s + 1) m from rfl]
      rw [List.cons_append]
      rw [show s + (m + 1) = s + 1 + m by omega]

lemma runLoop_clean {tasks : List TaskSpec} {conc : Int} {ff : Bool}
    {sched : Nat → List Nat → List Nat} (hconc : 1 ≤ conc)
    (hsched : schedValid sched) :
    ∀ (fuel waveNo : Nat) (queue : List Nat) (st : RunState),
      queue.length < fuel → queue.Nodup →
      (∀ i ∈ queue, i ∉ st.processing) →
      (∀ i ∈ queue,
        ff = false ∨ ∃ v, tasks[i]? = some (TaskSpec.resolve v)) →
      st.failed = false →
      ∃ stF,
        TS.runLoop tasks conc ff sched fuel waveNo queue st =
          some (TS.finishRun stF, stF) ∧
        stF.failed = false ∧
        stF.firstError = st.firstError ∧
        stF.results.length = st.results.length ∧
        (∀ j, j < st.results.length →
          stF.results[j]? =
            if j ∈ queue then some (some (settledValue tasks j))
            else st.results[j]?) ∧
        stF.completed = st.completed + queue.length ∧
        progressCalls stF.events =
          progressCalls st.events ++
            (List.range' (st.completed + 1) queue.length).map
              (fun c => (c, tasks.length)) := by
  intro fuel
  induction fuel with
  | zero =>
      intro waveNo queue st h1
      exact absurd h1 (by omega)
  | succ n ih =>
      intro waveNo queue st h1 h2 h3 h4 h5
      rw [runLoop_succ]
      by_cases hq : queue.isEmpty = true
      · rw [if_pos (by simp [hq])]
        rw [List.isEmpty_iff] at hq
        subst hq
        refine ⟨st, rfl, h5, rfl, rfl, ?_, by simp, by simp⟩
        intro j hj
        rw [if_neg (by simp)]
      · have hqne : queue ≠ [] := fun he => hq (by simp [he])
        have hlenpos : 0 < queue.length := List.length_pos.mpr hqne
        have hck : 1 ≤ conc.toNat := by omega
        have hk : ¬ (min queue.length conc.toNat = 0) := by omega
        have hcond : ¬ ((queue.isEmpty || st.failed) = true) := by
          simp [hq, h5]
        rw [if_neg hcond, if_neg hk]
        -- facts about the wave
        have hperm := hsched waveNo (queue.take (min queue.length conc.toNat))
        have hndw : (queue.take (min queue.length conc.toNat)).Nodup :=
          h2.sublist (List.take_sublist _ _)
        have hfreshw : ∀ i ∈ queue.take (min queue.length conc.toNat),
            i ∉ st.processing :=
          fun i hi => h3 i (List.take_subset _ _ hi)
        have hresw : ∀ i ∈ sched waveNo
            (queue.take (min queue.length conc.toNat)),
            ff = false ∨ ∃ v, tasks[i]? = some (TaskSpec.resolve v) :=
          fun i hi =>
            h4 i (List.take_subset _ _ (hperm.subset hi))
        obtain ⟨w1, w2, w3, w4, w5, w6, w7⟩ :=
          runWave_clean tasks.length h5 hndw hfreshw hperm hresw
        rw [if_neg (by rw [w1]; simp)]
        -- disjointness of the wave and the rest of the queue
        have hsplit := List.take_append_drop (min queue.length conc.toNat) queue
        have hnd2 : ((queue.take (min queue.length conc.toNat)) ++
            (queue.drop (min queue.length conc.toNat))).Nodup := by
          rw [hsplit]; exact h2
        rw [List.nodup_append] at hnd2
        -- invariants for the recursive call
        have hlen' : (queue.drop (min queue.length conc.toNat)).length < n := by
          rw [List.length_drop]
          omega
        have hfresh' : ∀ i ∈ queue.drop (min queue.length conc.toNat),
            i ∉ (TS.runWave tasks ff tasks.length
              (sched waveNo (queue.take (min queue.length conc.toNat)))
              (queue.take (min queue.length conc.toNat)) st).processing := by
          intro i hi
          rw [w3]
          rw [List.mem_append, List.mem_reverse]
          rintro (hiw | hip)
          · exact hnd2.2.2 hiw hi
          · exact h3 i (List.drop_subset _ _ hi) hip
        have hres' : ∀ i ∈ queue.drop (min queue.length conc.toNat),
            ff = false ∨ ∃ v, tasks[i]? = some (TaskSpec.resolve v) :=
          fun i hi => h4 i (List.drop_subset _ _ hi)
        obtain ⟨stF, d1, d2, d3, d4, d5, d6, d7⟩ :=
          ih (waveNo + 1) (queue.drop (min queue.length conc.toNat))
            (TS.runWave tasks ff tasks.length
              (sched waveNo (queue.take (min queue.length conc.toNat)))
              (queue.take (min queue.length conc.toNat)) st)
            hlen' (h2.sublist (List.drop_sublist _ _)) hfresh' hres' w1
        refine ⟨stF, d1, d2, ?_, ?_, ?_, ?_, ?_⟩
        · rw [d3, w2]
        · rw [d4, w4]
        · intro j hj
          rw [d5 j (by rw [w4]; exact hj)]
          by_cases hjd : j ∈ queue.drop (min queue.length conc.toNat)
          · rw [if_pos hjd, if_pos (by
              rw [← hsplit]
              exact List.mem_append_right _ hjd)]
          · rw [if_neg hjd, w5 j hj]
            by_cases hjw : j ∈ queue.take (min queue.length conc.toNat)
            · rw [if_pos hjw, if_pos (by
                rw [← hsplit]
                exact List.mem_append_left _ hjw)]
            · rw [if_neg hjw, if_neg (by
                rw [← hsplit, List.mem_append]
                rintro (h | h)
                · exact hjw h
                · exact hjd h)]
        · rw [d6, w6, List.length_drop, List.length_take]
          omega
        · rw [d7, w7, List.append_assoc]
          congr 1
          rw [w6, ← List.map_append]
          congr 1
          rw [show st.completed + (queue.take
              (min queue.length conc.toNat)).length + 1 =
            (st.completed + 1) +
              (queue.take (min queue.length conc.toNat)).length by omega]
          rw [← range'_split]
          congr 1
          rw [List.length_drop, List.length_take]
          omega

lemma foldSettle_failed_mono {tasks : List TaskSpec} {ff : Bool} {total : Nat} :
    ∀ (order : List Nat) (st : RunState), st.failed = true →
      (order.foldl (TS.settleTask tasks ff total) st).failed = true := by
  intro order
  induction order with
  | nil => intro st h; exact h
  | cons a w ih =>
      intro st h
      rw [List.foldl_cons]
      exact ih _ (settleTask_failed_mono h)

lemma foldSettle_firstError_mono {tasks : List TaskSpec} {ff : Bool}
    {total : Nat} :
    ∀ (order : List Nat) (st : RunState), st.firstError.isSome = true →
      (order.foldl (TS.settleTask tasks ff total) st).firstError.isSome =
        true := by
  intro order
  induction order with
  | nil => intro st h; exact h
  | cons a w ih =>
      intro st h
      rw [List.foldl_cons]
      exact ih _ (settleTask_firstError_mono h)

lemma foldSettle_abort_some {tasks : List TaskSpec} {ff : Bool} {total : Nat} :
    ∀ (order : List Nat) (st : RunState), st.failed = false →
      (order.foldl (TS.settleTask tasks ff total) st).failed = true →
      (order.foldl (TS.settleTask tasks ff total) st).firstError.isSome =
        true := by
  intro order
  induction order with
  | nil =>
      intro st h hc
      rw [List.foldl_nil] at hc
      rw [h] at hc
      exact absurd hc (by simp)
  | cons a w ih =>
      intro st h hc
      rw [List.foldl_cons] at hc ⊢
      by_cases h1 : (TS.settleTask tasks ff total st a).failed = true
      · exact foldSettle_firstError_mono w _
          (settleTask_failed_firstError h h1)
      · exact ih _ (Bool.eq_false_iff.mpr h1) hc

lemma foldSettle_reject_failed {tasks : List TaskSpec} (total : Nat) :
    ∀ (order : List Nat) (st : RunState) (i0 : Nat) (e : JSValue),
      i0 ∈ order → tasks[i0]? = some (TaskSpec.reject e) →
      (order.foldl (TS.settleTask tasks true total) st).failed = true := by
  intro order
  induction order with
  | nil => intro st i0 e h; exact absurd h (List.not_mem_nil i0)
  | cons a w ih =>
      intro st i0 e hmem hrej
      rw [List.foldl_cons]
      rcases List.mem_cons.mp hmem with he | hw
      · subst he
        apply foldSettle_failed_mono
        rw [settleTask_reject_abort total st hrej]
      · exact ih _ i0 e hw hrej

lemma settleTask_events (tasks : List TaskSpec) (ff : Bool) (total i : Nat)
    (st : RunState) :
    ∃ pe, (TS.settleTask tasks ff total st i).events =
      st.events ++ Event.settle i :: pe ∧
      invokesOf pe = [] ∧ settlesOf pe = [] := by
  simp only [TS.settleTask]
  cases h : tasks[i]? with
  | none =>
      dsimp only
      split_ifs
      case pos => exact ⟨[], by simp, rfl, rfl⟩
      case pos => exact ⟨[], by simp, rfl, rfl⟩
      case neg => exact ⟨[Event.progress (st.completed + 1) total],
        by simp, rfl, rfl⟩
      case neg => exact ⟨[Event.progress (st.completed + 1) total],
        by simp, rfl, rfl⟩
  | some t =>
      cases t with
      | resolve v =>
          dsimp only
          split_ifs
          case pos => exact ⟨[], by simp, rfl, rfl⟩
          case neg => exact ⟨[Event.progress (st.completed + 1) total],
            by simp, rfl, rfl⟩
      | reject e =>
          dsimp only
          split_ifs
          case pos => exact ⟨[], by simp, rfl, rfl⟩
          case pos => exact ⟨[], by simp, rfl, rfl⟩
          case neg => exact ⟨[Event.progress (st.completed + 1) total],
            by simp, rfl, rfl⟩
          case neg => exact ⟨[Event.progress (st.completed + 1) total],
            by simp, rfl, rfl⟩

lemma foldSettle_events {tasks : List TaskSpec} {ff : Bool} {total : Nat} :
    ∀ (order : List Nat) (st : RunState),
      ∃ rest, (order.foldl (TS.settleTask tasks ff total) st).events =
        st.events ++ rest ∧
        invokesOf rest = [] ∧ settlesOf rest = order := by
  intro order
  induction order with
  | nil => intro st; exact ⟨[], by simp, rfl, rfl⟩
  | cons a w ih =>
      intro st
      rw [List.foldl_cons]
      obtain ⟨rest, hr1, hr2, hr3⟩ := ih (TS.settleTask tasks ff total st a)
      obtain ⟨pe, hp1, hp2, hp3⟩ := settleTask_events tasks ff total a st
      refine ⟨Event.settle a :: pe ++ rest, ?_, ?_, ?_⟩
      · rw [hr1, hp1]
        simp
      · show invokesOf ((Event.settle a :: pe) ++ rest) = []
        rw [invokesOf_append, hr2, List.append_nil]
        rw [show Event.settle a :: pe = [Event.settle a] ++ pe from rfl]
        rw [invokesOf_append, hp2, List.append_nil]
        rfl
      · show settlesOf ((Event.settle a :: pe) ++ rest) = a :: w
        rw [settlesOf_append, hr3]
        rw [show Event.settle a :: pe = [Event.settle a] ++ pe from rfl]
        rw [settlesOf_append, hp3, List.append_nil]
        rfl

lemma startTasks_failed (st : RunState) :
    ∀ wave : List Nat, (TS.startTasks st wave).1.failed = st.failed ∧
      (TS.startTasks st wave).1.firstError = st.firstError := by
  intro wave
  induction wave generalizing st with
  | nil => exact ⟨rfl, rfl⟩
  | cons a w ih =>
      rw [TS.startTasks]
      split_ifs
      · exact ih st
      · exact ih _

lemma runWave_reject {tasks : List TaskSpec} (total : Nat)
    {order wave : List Nat} {st : RunState}
    (hf : st.failed = false) (hnd : wave.Nodup)
    (hfresh : ∀ i ∈ wave, i ∉ st.processing)
    (hperm : order.Perm wave)
    {i0 : Nat} {e : JSValue} (hi0 : i0 ∈ wave)
    (hrej : tasks[i0]? = some (TaskSpec.reject e)) :
    (TS.runWave tasks true total order wave st).failed = true ∧
      (TS.runWave tasks true total order wave st).firstError.isSome = true := by
  rw [TS.runWave]
  simp only [startTasks_eq st hf hfresh hnd]
  rw [settleAll_eq_fold order _ (fun i hi => hperm.subset hi)]
  have hfail := foldSettle_reject_failed total order
    { st with
        processing := wave.reverse ++ st.processing
        events := st.events ++ wave.map Event.invoke }
    i0 e (hperm.mem_iff.mpr hi0) hrej
  exact ⟨hfail, foldSettle_abort_some order
    { st with
        processing := wave.reverse ++ st.processing
        events := st.events ++ wave.map Event.invoke }
    hf hfail⟩

lemma runWave_abort_some {tasks : List TaskSpec} {ff : Bool} {total : Nat}
    {order wave : List Nat} {st : RunState}
    (hf : st.failed = false) (hnd : wave.Nodup)
    (hfresh : ∀ i ∈ wave, i ∉ st.processing)
    (hperm : order.Perm wave)
    (hfail : (TS.runWave tasks ff total order wave st).failed = true) :
    (TS.runWave tasks ff total order wave st).firstError.isSome = true := by
  rw [TS.runWave] at hfail ⊢
  simp only [startTasks_eq st hf hfresh hnd] at hfail ⊢
  rw [settleAll_eq_fold order _ (fun i hi => hperm.subset hi)] at hfail ⊢
  exact foldSettle_abort_some order _ hf hfail

lemma runWave_events (tasks : List TaskSpec) (ff : Bool) (total : Nat)
    {order wave : List Nat} {st : RunState}
    (hf : st.failed = false) (hnd : wave.Nodup)
    (hfresh : ∀ i ∈ wave, i ∉ st.processing)
    (hperm : order.Perm wave) :
    ∃ rest, (TS.runWave tasks ff total order wave st).events =
      st.events ++ (wave.map Event.invoke ++ rest) ∧
      invokesOf rest = [] ∧ settlesOf rest = order := by
  rw [TS.runWave]
  simp only [startTasks_eq st hf hfresh hnd]
  rw [settleAll_eq_fold order _ (fun i hi => hperm.subset hi)]
  obtain ⟨rest, h1, h2, h3⟩ := foldSettle_events order
    { st with
        processing := wave.reverse ++ st.processing
        events := st.events ++ wave.map Event.invoke }
  exact ⟨rest, by rw [h1]; simp, h2, h3⟩

lemma runLoop_stuck {tasks : List TaskSpec} {conc : Int} {ff : Bool}
    {sched : Nat → List Nat → List Nat} (hconc : conc < 1) :
    ∀ (fuel waveNo : Nat) (queue : List Nat) (st : RunState),
      queue ≠ [] → st.failed = false →
      TS.runLoop tasks conc ff sched fuel waveNo queue st = none := by
  intro fuel
  induction fuel with
  | zero => intro waveNo queue st _ _; exact runLoop_zero _ _ _ _ _ _ _
  | succ n ih =>
      intro waveNo queue st hne hf
      rw [runLoop_succ]
      rw [if_neg (by simp [hf, List.isEmpty_iff, hne])]
      rw [if_pos (by
        have : conc.toNat = 0 := by omega
        omega)]
      exact ih waveNo queue st hne hf

lemma runLoop_reject {tasks : List TaskSpec} {conc : Int}
    {sched : Nat → List Nat → List Nat} (hconc : 1 ≤ conc)
    (hsched : schedValid sched) :
    ∀ (fuel waveNo : Nat) (queue : List Nat) (st : RunState),
      queue.length < fuel → queue.Nodup →
      (∀ i ∈ queue, i ∉ st.processing) →
      (∀ i ∈ queue, i < tasks.length) →
      st.failed = false →
      (∃ i0 ∈ queue, ∃ e, tasks[i0]? = some (TaskSpec.reject e)) →
      ∃ e stF, TS.runLoop tasks conc true sched fuel waveNo queue st =
        some (BatchResult.thrown e, stF) := by
  intro fuel
  induction fuel with
  | zero =>
      intro waveNo queue st h1
      exact absurd h1 (by omega)
  | succ n ih =>
      intro waveNo queue st h1 h2 h3 h4 h5 hrej
      obtain ⟨i0, hi0q, e0, he0⟩ := hrej
      have hqne : queue ≠ [] := fun he => by simp [he] at hi0q
      have hlenpos : 0 < queue.length := List.length_pos.mpr hqne
      have hck : 1 ≤ conc.toNat := by omega
      have hk : ¬ (min queue.length conc.toNat = 0) := by omega
      have hcond : ¬ ((queue.isEmpty || st.failed) = true) := by
        simp [List.isEmpty_iff, hqne, h5]
      rw [runLoop_succ, if_neg hcond, if_neg hk]
      have hperm := hsched waveNo (queue.take (min queue.length conc.toNat))
      have hndw : (queue.take (min queue.length conc.toNat)).Nodup :=
        h2.sublist (List.take_sublist _ _)
      have hfreshw : ∀ i ∈ queue.take (min queue.length conc.toNat),
          i ∉ st.processing :=
        fun i hi => h3 i (List.take_subset _ _ hi)
      by_cases hwrej : ∃ i1 ∈ queue.take (min queue.length conc.toNat),
          ∃ e, tasks[i1]? = some (TaskSpec.reject e)
      · obtain ⟨i1, hi1, e1, he1⟩ := hwrej
        obtain ⟨hfail, hsome⟩ :=
          runWave_reject tasks.length h5 hndw hfreshw hperm hi1 he1
        rw [if_pos hfail]
        obtain ⟨e2, he2⟩ := Option.isSome_iff_exists.mp hsome
        rw [he2]
        exact ⟨e2, _, rfl⟩
      · -- the wave has no rejecting task: it behaves like a clean wave
        have hresw : ∀ i ∈ sched waveNo
            (queue.take (min queue.length conc.toNat)),
            true = false ∨ ∃ v, tasks[i]? = some (TaskSpec.resolve v) := by
          intro i hi
          right
          have hiw := hperm.subset hi
          have hilt : i < tasks.length :=
            h4 i (List.take_subset _ _ hiw)
          cases htk : tasks[i]? with
          | none =>
              rw [List.getElem?_eq_none_iff] at htk
              omega
          | some t2 =>
              cases t2 with
              | resolve v => exact ⟨v, rfl⟩
              | reject e2 => exact absurd ⟨i, hiw, e2, htk⟩ hwrej
        obtain ⟨w1, w2, w3, w4, w5, w6, w7⟩ :=
          runWave_clean tasks.length h5 hndw hfreshw hperm hresw
        rw [if_neg (by rw [w1]; simp)]
        have hsplit := List.take_append_drop (min queue.length conc.toNat) queue
        have hnd2 : ((queue.take (min queue.length conc.toNat)) ++
            (queue.drop (min queue.length conc.toNat))).Nodup := by
          rw [hsplit]; exact h2
        rw [List.nodup_append] at hnd2
        have hfresh' : ∀ i ∈ queue.drop (min queue.length conc.toNat),
            i ∉ (TS.runWave tasks true tasks.length
              (sched waveNo (queue.take (min queue.length conc.toNat)))
              (queue.take (min queue.length conc.toNat)) st).processing := by
          intro i hi
          rw [w3]
          rw [List.mem_append, List.mem_reverse]
          rintro (hiw | hip)
          · exact hnd2.2.2 hiw hi
          · exact h3 i (List.drop_subset _ _ hi) hip
        have hi0d : i0 ∈ queue.drop (min queue.length conc.toNat) := by
          rw [← hsplit, List.mem_append] at hi0q
          rcases hi0q with hiw | hid
          · exact absurd ⟨i0, hiw, e0, he0⟩ hwrej
          · exact hid
        exact ih (waveNo + 1) (queue.drop (min queue.length conc.toNat)) _
          (by rw [List.length_drop]; omega)
          (h2.sublist (List.drop_sublist _ _)) hfresh'
          (fun i hi => h4 i (List.drop_subset _ _ hi)) w1
          ⟨i0, hi0d, e0, he0⟩

/-- The number of tasks outstanding (invoked but not yet settled) after a
trace of events. -/
def inflight (es : List Event) : Nat :=
  (invokesOf es).length - (settlesOf es).length

/-- One wave's event segment: a block of task invocations followed only by
settlements (of exactly the invoked tasks, in some order) and progress
events, with at most `K` tasks invoked. -/
def WaveSeg (K : Nat) (seg : List Event) : Prop :=
  ∃ w rest, seg = w.map Event.invoke ++ rest ∧ invokesOf rest = [] ∧
    (settlesOf rest).Perm w ∧ w.length ≤ K

lemma settleAll_processing {tasks : List TaskSpec} {ff : Bool} {total : Nat}
    {started : List Nat} : ∀ (order : List Nat) (st : RunState),
    (TS.settleAll tasks ff total started order st).processing =
      st.processing := by
  intro order
  induction order with
  | nil => intro st; rfl
  | cons a w ih =>
      intro st
      rw [TS.settleAll]
      rw [ih]
      split_ifs
      · exact settleTask_processing
      · rfl

lemma runWave_processing {tasks : List TaskSpec} {ff : Bool} {total : Nat}
    {order wave : List Nat} {st : RunState}
    (hf : st.failed = false) (hnd : wave.Nodup)
    (hfresh : ∀ i ∈ wave, i ∉ st.processing) :
    (TS.runWave tasks ff total order wave st).processing =
      wave.reverse ++ st.processing := by
  rw [TS.runWave]
  simp only [startTasks_eq st hf hfresh hnd]
  rw [settleAll_processing]

lemma runLoop_traces {tasks : List TaskSpec} {conc : Int} {ff : Bool}
    {sched : Nat → List Nat → List Nat} (hconc : 1 ≤ conc)
    (hsched : schedValid sched) :
    ∀ (fuel waveNo : Nat) (queue : List Nat) (st : RunState),
      queue.length < fuel → queue.Nodup →
      (∀ i ∈ queue, i ∉ st.processing) → st.failed = false →
      ∃ (r : BatchResult) (stF : RunState) (segs : List (List Event))
        (d : Nat),
        TS.runLoop tasks conc ff sched fuel waveNo queue st =
          some (r, stF) ∧
        stF.events = st.events ++ segs.flatten ∧
        (∀ seg ∈ segs, WaveSeg conc.toNat seg) ∧
        d ≤ queue.length ∧
        invokesOf segs.flatten = queue.take d := by
  intro fuel
  induction fuel with
  | zero =>
      intro waveNo queue st h1
      exact absurd h1 (by omega)
  | succ n ih =>
      intro waveNo queue st h1 h2 h3 h5
      rw [runLoop_succ]
      by_cases hq : queue.isEmpty = true
      · rw [if_pos (by simp [hq])]
        refine ⟨TS.finishRun st, st, [], 0, rfl, by simp, ?_, by omega, ?_⟩
        · intro seg hseg
          exact absurd hseg (List.not_mem_nil seg)
        · simp [invokesOf]
      · have hqne : queue ≠ [] := fun he => hq (by simp [he])
        have hlenpos : 0 < queue.length := List.length_pos.mpr hqne
        have hck : 1 ≤ conc.toNat := by omega
        have hk : ¬ (min queue.length conc.toNat = 0) := by omega
        rw [if_neg (by simp [hq, h5]), if_neg hk]
        have hperm := hsched waveNo (queue.take (min queue.length conc.toNat))
        have hndw : (queue.take (min queue.length conc.toNat)).Nodup :=
          h2.sublist (List.take_sublist _ _)
        have hfreshw : ∀ i ∈ queue.take (min queue.length conc.toNat),
            i ∉ st.processing :=
          fun i hi => h3 i (List.take_subset _ _ hi)
        obtain ⟨rest, he1, he2, he3⟩ :=
          runWave_events tasks ff tasks.length h5 hndw hfreshw hperm
        have hseg0 : WaveSeg conc.toNat
            ((queue.take (min queue.length conc.toNat)).map Event.invoke
              ++ rest) := by
          refine ⟨queue.take (min queue.length conc.toNat), rest, rfl, he2,
            ?_, ?_⟩
          · rw [he3]; exact hperm
          · rw [List.length_take]; omega
        have hinv0 : invokesOf
            ((queue.take (min queue.length conc.toNat)).map Event.invoke
              ++ rest) = queue.take (min queue.length conc.toNat) := by
          rw [invokesOf_append, invokesOf_invokes, he2, List.append_nil]
        by_cases hfail : (TS.runWave tasks ff tasks.length
            (sched waveNo (queue.take (min queue.length conc.toNat)))
            (queue.take (min queue.length conc.toNat)) st).failed = true
        · rw [if_pos hfail]
          have hsome := runWave_abort_some h5 hndw hfreshw hperm hfail
          obtain ⟨e2, he4⟩ := Option.isSome_iff_exists.mp hsome
          rw [he4]
          refine ⟨BatchResult.thrown e2, _,
            [(queue.take (min queue.length conc.toNat)).map Event.invoke
              ++ rest], min queue.length conc.toNat, rfl, ?_, ?_, ?_, ?_⟩
          · rw [he1]; simp
          · intro seg hseg
            rw [List.mem_singleton] at hseg
            rw [hseg]
            exact hseg0
          · omega
          · rw [show
              [(queue.take (min queue.length conc.toNat)).map Event.invoke
                ++ rest].flatten =
              (queue.take (min queue.length conc.toNat)).map Event.invoke
                ++ rest from by simp]
            exact hinv0
        · rw [if_neg hfail]
          have hclean : (TS.runWave tasks ff tasks.length
              (sched waveNo (queue.take (min queue.length conc.toNat)))
              (queue.take (min queue.length conc.toNat)) st).failed = false :=
            Bool.eq_false_iff.mpr hfail
          have hsplit := List.take_append_drop
            (min queue.length conc.toNat) queue
          have hnd2 : ((queue.take (min queue.length conc.toNat)) ++
              (queue.drop (min queue.length conc.toNat))).Nodup := by
            rw [hsplit]; exact h2
          rw [List.nodup_append] at hnd2
          have hfresh' : ∀ i ∈ queue.drop (min queue.length conc.toNat),
              i ∉ (TS.runWave tasks ff tasks.length
                (sched waveNo (queue.take (min queue.length conc.toNat)))
                (queue.take (min queue.length conc.toNat)) st).processing := by
            intro i hi
            rw [runWave_processing h5 hndw hfreshw]
            rw [List.mem_append, List.mem_reverse]
            rintro (hiw | hip)
            · exact hnd2.2.2 hiw hi
            · exact h3 i (List.drop_subset _ _ hi) hip
          obtain ⟨r, stF, segs2, d2, ih1, ih2, ih3, ih4, ih5⟩ :=
            ih (waveNo + 1) (queue.drop (min queue.length conc.toNat)) _
              (by rw [List.length_drop]; omega)
              (h2.sublist (List.drop_sublist _ _)) hfresh' hclean
          refine ⟨r, stF,
            ((queue.take (min queue.length conc.toNat)).map Event.invoke
              ++ rest) :: segs2,
            min queue.length conc.toNat + d2, ih1, ?_, ?_, ?_, ?_⟩
          · rw [ih2, he1, List.flatten_cons]
            simp [List.append_assoc]
          · intro seg hseg
            rcases List.mem_cons.mp hseg with h | h
            · rw [h]; exact hseg0
            · exact ih3 seg h
          · rw [List.length_drop] at ih4
            omega
          · rw [List.flatten_cons, invokesOf_append, hinv0, ih5]
            exact (List.take_add queue _ _).symm

lemma waveSeg_balance {K : Nat} {seg : List Event} (h : WaveSeg K seg) :
    (invokesOf seg).length = (settlesOf seg).length ∧
      ∀ nn, inflight (seg.take nn) ≤ K := by
  obtain ⟨w, rest, hseg, hinv, hperm, hlen⟩ := h
  subst hseg
  constructor
  · rw [invokesOf_append, settlesOf_append, invokesOf_invokes,
      settlesOf_invokes, hinv, List.append_nil, List.nil_append,
      hperm.length_eq]
  · intro nn
    have hmono : (invokesOf ((w.map Event.invoke ++ rest).take nn)).length ≤
        (invokesOf (w.map Event.invoke ++ rest)).length :=
      ((List.take_sublist nn _).filterMap _).length_le
    rw [invokesOf_append, invokesOf_invokes, hinv, List.append_nil] at hmono
    unfold inflight
    omega

lemma waveSegs_bound {K : Nat} :
    ∀ segs : List (List Event), (∀ seg ∈ segs, WaveSeg K seg) →
      ∀ nn, inflight (segs.flatten.take nn) ≤ K := by
  intro segs
  induction segs with
  | nil =>
      intro _ nn
      simp [inflight, invokesOf, settlesOf]
  | cons s rest ih =>
      intro h nn
      rw [List.flatten_cons, List.take_append_eq_append_take]
      obtain ⟨hbal, hbound⟩ := waveSeg_balance (h s (List.mem_cons_self s rest))
      by_cases h2 : nn ≤ s.length
      · rw [show nn - s.length = 0 from by omega]
        rw [List.take_zero, List.append_nil]
        exact hbound nn
      · rw [List.take_all_of_le (by omega)]
        have hrest := ih (fun seg hseg => h seg (List.mem_cons_of_mem s hseg))
          (nn - s.length)
        unfold inflight at hrest ⊢
        rw [invokesOf_append, settlesOf_append, List.length_append,
          List.length_append]
        omega

/-- The value `processTask` records for a task: its resolved value, or its
coerced rejection error. -/
def outVal : TaskSpec → JSValue
  | TaskSpec.resolve v => v
  | TaskSpec.reject e => coerceError e

lemma settledValue_eq {tasks : List TaskSpec} {j : Nat}
    (h : j < tasks.length) : settledValue tasks j = outVal tasks[j] := by
  rw [settledValue, List.getElem?_eq_getElem h]
  cases tasks[j] <;> rfl

lemma isError_coerceError (e : JSValue) : isError (coerceError e) = true := by
  cases e <;> rfl

lemma results_eq_map {tasks : List TaskSpec} {stF : RunState}
    (hlen : stF.results.length = tasks.length)
    (hpt : ∀ j, j < tasks.length →
      stF.results[j]? = some (some (settledValue tasks j))) :
    stF.results = tasks.map (fun t => some (outVal t)) := by
  apply List.ext_getElem?_iff.mpr
  intro i
  by_cases hi : i < tasks.length
  · rw [hpt i hi, List.getElem?_map, List.getElem?_eq_getElem hi]
    rw [settledValue_eq hi]
    rfl
  · rw [List.getElem?_eq_none (by omega), List.getElem?_eq_none (by
      rw [List.length_map]; omega)]

lemma finishRun_thrown {st : RunState}
    (h : (st.results.all fun slot =>
      match slot with
      | some v => isError v
      | none => true) = true) :
    TS.finishRun st = BatchResult.thrown (JSValue.error
      ("All tasks failed to execute: " ++
        String.intercalate ", " (st.results.map fun slot =>
          match slot with
          | some v => errMessage v
          | none => ""))) := by
  rw [TS.finishRun]
  simp only [h, if_true]

lemma finishRun_ok {st : RunState}
    (h : ¬ ((st.results.all fun slot =>
      match slot with
      | some v => isError v
      | none => true) = true)) :
    TS.finishRun st = BatchResult.ok st.results := by
  rw [TS.finishRun]
  rw [if_neg h]

/-- A full continue-on-error (or all-resolving) run in which every recorded
value is an `Error` instance ends in the aggregate throw. -/
lemma runFull_all_errors {tasks : List TaskSpec} {conc : Int}
    {sched : Nat → List Nat → List Nat} {fuel : Nat} {ff : Bool}
    (hconc : 1 ≤ conc) (hsched : schedValid sched)
    (hfuel : tasks.length < fuel)
    (hres : ∀ i ∈ List.range tasks.length,
      ff = false ∨ ∃ v, tasks[i]? = some (TaskSpec.resolve v))
    (hall : ∀ t ∈ tasks, isError (outVal t) = true) :
    ∃ stF,
      TS.asyncBatch tasks { concurrency := conc, failFast := ff } sched fuel =
        some (BatchResult.thrown (JSValue.error
          ("All tasks failed to execute: " ++
            String.intercalate ", "
              (tasks.map fun t => errMessage (outVal t)))), stF) ∧
      stF.failed = false ∧
      progressCalls stF.events =
        (List.range' 1 tasks.length).map (fun c => (c, tasks.length)) := by
  obtain ⟨stF, d1, d2, d3, d4, d5, d6, d7⟩ :=
    runLoop_clean hconc hsched fuel 0 (List.range tasks.length)
      (initSt tasks.length)
      (by rw [List.length_range]; omega)
      (List.nodup_range tasks.length)
      (by intro i hi; exact List.not_mem_nil i)
      hres rfl
  have hmap : stF.results = tasks.map (fun t => some (outVal t)) := by
    apply results_eq_map
    · rw [d4]
      show (List.replicate tasks.length (none : Option JSValue)).length =
        tasks.length
      exact List.length_replicate tasks.length none
    · intro j hj
      rw [d5 j (by
        show j < (List.replicate tasks.length (none : Option JSValue)).length
        rw [List.length_replicate]
        omega)]
      rw [if_pos (List.mem_range.mpr hj)]
  have hallb : (stF.results.all fun slot =>
      match slot with
      | some v => isError v
      | none => true) = true := by
    rw [hmap, List.all_eq_true]
    intro slot hslot
    obtain ⟨t, ht, rfl⟩ := List.mem_map.mp hslot
    exact hall t ht
  refine ⟨stF, ?_, d2, ?_⟩
  · rw [TS.asyncBatch, d1, finishRun_thrown hallb, hmap, List.map_map]
    rfl
  · rw [d7]
    show progressCalls [] ++
        (List.range' 1 (List.range tasks.length).length).map
          (fun c => (c, tasks.length)) =
      (List.range' 1 tasks.length).map (fun c => (c, tasks.length))
    rw [show progressCalls [] = [] from rfl, List.nil_append,
      List.length_range]

/-! ### Claim theorems -/

/-- Claim C1 (code bug).  The spec says the empty task list yields an empty
result list immediately, with no error and no `onProgress` call, for every
option value.  The code instead throws: with `tasks = []`,
`results.every((r) => r instanceof Error)` is vacuously `true`, so
`asyncBatch` throws `Error("All tasks failed to execute: ")`.  This theorem
evaluates the embedded code at the failing input: the run ends in a thrown
aggregate error (never in `BatchResult.ok []`), while the final state is the
untouched initial state (so `onProgress` is indeed never invoked, the
`events` trace being empty). -/
theorem C1_empty_input_throws (options : AsyncBatchOptions)
    (sched : Nat → List Nat → List Nat) (fuel : Nat) (hfuel : 1 ≤ fuel) :
    TS.asyncBatch [] options sched fuel =
      some (BatchResult.thrown
        (JSValue.error "All tasks failed to execute: "), initSt 0) := by
  obtain ⟨m, rfl⟩ : ∃ m, fuel = m + 1 := ⟨fuel - 1, by omega⟩
  rfl

theorem C1_witness :
    1 ≤ 1 ∧
      TS.asyncBatch [] {} (fun _ l => l) 1 =
        some (BatchResult.thrown
          (JSValue.error "All tasks failed to execute: "), initSt 0) :=
  ⟨by decide, C1_empty_input_throws {} (fun _ l => l) 1 (by decide)⟩

/-- Claim C2 (code bug).  The spec says that in fail-fast mode the first
failure observed in settlement order becomes the run's sole reported error
and sibling errors in the same wave are swallowed.  In the code, every
failure of the wave overwrites `firstError` (`firstError = error instanceof
Error ? error : ...` has no once-only guard), so the run throws the LAST
settled failure.  Here both tasks are admitted in one wave and settle in
input order (the identity schedule): task 0 fails first with `Error("A")`,
task 1 fails afterwards with `Error("B")`, and the run throws `Error("B")` —
the first observed error `"A"` is the one that is swallowed, contradicting
the claim (and the variable's own name `firstError`, and the README's "the
first error encountered will reject the promise"). -/
theorem C2_failFast_throws_last_error :
    TS.asyncBatch
      [TaskSpec.reject (JSValue.error "A"),
        TaskSpec.reject (JSValue.error "B")]
      { concurrency := 5, failFast := true } (fun _ l => l) 3 =
      some (BatchResult.thrown (JSValue.error "B"),
        { results := [none, none]
          completed := 0
          failed := true
          firstError := some (JSValue.error "B")
          processing := [1, 0]
          events := [Event.invoke 0, Event.invoke 1,
            Event.settle 0, Event.settle 1] }) := by
  rfl

/-- Claim C3 (code bug).  The spec says any configuration with
`concurrency < 1` must raise a configuration error synchronously, before any
task runs.  The code performs no validation at all: with `concurrency <= 0`
and a non-empty task list, the fill loop admits nothing
(`inProgress.size < concurrency` is immediately false), `inProgress.size > 0`
never holds, and the outer `while (queue.length > 0 && !failed)` loop spins
forever.  In the fuel-indexed embedding the loop exhausts every fuel bound
(`none` for all `fuel`), i.e. the run neither returns nor throws anything —
no configuration error is ever raised. -/
theorem C3_concurrency_never_validated (conc : Int) (hconc : conc < 1)
    (ff : Bool) (tasks : List TaskSpec) (hne : tasks ≠ [])
    (sched : Nat → List Nat → List Nat) (fuel : Nat) :
    TS.asyncBatch tasks { concurrency := conc, failFast := ff } sched fuel =
      none := by
  rw [TS.asyncBatch]
  apply runLoop_stuck hconc
  · rw [Ne, List.range_eq_nil]
    intro h
    exact hne (List.length_eq_zero.mp h)
  · rfl

theorem C3_witness :
    (0 : Int) < 1 ∧
      [TaskSpec.resolve (JSValue.num 1)] ≠ [] ∧
      TS.asyncBatch [TaskSpec.resolve (JSValue.num 1)]
        { concurrency := 0, failFast := false } (fun _ l => l) 100 = none :=
  ⟨by decide, by decide,
    C3_concurrency_never_validated 0 (by decide) false
      [TaskSpec.resolve (JSValue.num 1)] (by decide) (fun _ l => l) 100⟩

/-- Claim C9.  The TypeScript implementation (`src/src/index.ts`) and the
JavaScript implementation (`src/src/index.js`) compute the same function:
the two embeddings agree on every input (same result list, same thrown
errors, same observable event trace). -/
theorem C9_ts_eq_js : TS.asyncBatch = JS.asyncBatch := by
  funext tasks options sched fuel
  rw [TS.asyncBatch, JS.asyncBatch]
  exact runLoop_ts_eq_js tasks options.concurrency options.failFast sched
    fuel 0 (List.range tasks.length) (initSt tasks.length)

/-- Claim C5 (confirmed).  With `failFast = false`, when every task rejects,
the run throws a single aggregate error whose message is
`"All tasks failed to execute: "` followed by the individual task error
messages in index order joined by `", "`; and the aggregate is raised only
when fail-fast was not engaged — the final state still has `failed = false`
(the abort flag was never set during the run). -/
theorem C5_all_failed_aggregate (tasks : List TaskSpec) (conc : Int)
    (sched : Nat → List Nat → List Nat) (fuel : Nat)
    (hconc : 1 ≤ conc) (hsched : schedValid sched)
    (hfuel : tasks.length < fuel)
    (hrej : ∀ t ∈ tasks, ∃ e, t = TaskSpec.reject e) :
    ∃ stF,
      TS.asyncBatch tasks { concurrency := conc, failFast := false } sched
        fuel =
        some (BatchResult.thrown (JSValue.error
          ("All tasks failed to execute: " ++
            String.intercalate ", "
              (tasks.map fun t => errMessage (outVal t)))), stF) ∧
      stF.failed = false := by
  obtain ⟨stF, h1, h2, _⟩ := runFull_all_errors hconc hsched hfuel
    (fun i _ => Or.inl rfl)
    (fun t ht => by
      obtain ⟨e, rfl⟩ := hrej t ht
      exact isError_coerceError e)
  exact ⟨stF, h1, h2⟩

theorem C5_witness :
    (1 : Int) ≤ 5 ∧ schedValid (fun _ l => l) ∧ 3 < 4 ∧
      (∀ t ∈ [TaskSpec.reject (JSValue.error "Error 1"),
          TaskSpec.reject (JSValue.error "Error 2"),
          TaskSpec.reject (JSValue.error "Error 3")],
        ∃ e, t = TaskSpec.reject e) ∧
      ∃ stF,
        TS.asyncBatch
          [TaskSpec.reject (JSValue.error "Error 1"),
            TaskSpec.reject (JSValue.error "Error 2"),
            TaskSpec.reject (JSValue.error "Error 3")]
          { concurrency := 5, failFast := false } (fun _ l => l) 4 =
          some (BatchResult.thrown (JSValue.error
            ("All tasks failed to execute: " ++
              String.intercalate ", "
                ([TaskSpec.reject (JSValue.error "Error 1"),
                  TaskSpec.reject (JSValue.error "Error 2"),
                  TaskSpec.reject (JSValue.error "Error 3")].map
                    fun t => errMessage (outVal t)))), stF) ∧
        stF.failed = false :=
  ⟨by decide, fun _ l => List.Perm.refl l, by decide,
    by
      intro t ht
      fin_cases ht
      · exact ⟨JSValue.error "Error 1", rfl⟩
      · exact ⟨JSValue.error "Error 2", rfl⟩
      · exact ⟨JSValue.error "Error 3", rfl⟩,
    C5_all_failed_aggregate _ 5 (fun _ l => l) 4 (by decide)
      (fun _ l => List.Perm.refl l) (by decide)
      (by
        intro t ht
        fin_cases ht
        · exact ⟨JSValue.error "Error 1", rfl⟩
        · exact ⟨JSValue.error "Error 2", rfl⟩
        · exact ⟨JSValue.error "Error 3", rfl⟩)⟩

/-- Claim C6 (confirmed).  With `failFast = false`, the `onProgress` call
trace of a run is exactly `[(1, total), (2, total), ..., (total, total)]`:
one call per settled task (`tasks.length` calls in all), with the first
argument taking the values `1, 2, ..., total` in strictly increasing order
and the second argument constantly `tasks.length`. -/
theorem C6_progress_trace (tasks : List TaskSpec) (conc : Int)
    (sched : Nat → List Nat → List Nat) (fuel : Nat)
    (hconc : 1 ≤ conc) (hsched : schedValid sched)
    (hfuel : tasks.length < fuel) :
    ∃ (r : BatchResult) (stF : RunState),
      TS.asyncBatch tasks { concurrency := conc, failFast := false } sched
        fuel = some (r, stF) ∧
      progressCalls stF.events =
        (List.range' 1 tasks.length).map (fun c => (c, tasks.length)) := by
  obtain ⟨stF, d1, d2, d3, d4, d5, d6, d7⟩ :=
    runLoop_clean hconc hsched fuel 0 (List.range tasks.length)
      (initSt tasks.length) (by rw [List.length_range]; omega)
      (List.nodup_range tasks.length)
      (fun i _ => List.not_mem_nil i)
      (fun i _ => Or.inl rfl) rfl
  refine ⟨TS.finishRun stF, stF, by rw [TS.asyncBatch]; exact d1, ?_⟩
  rw [d7]
  show progressCalls [] ++
      (List.range' 1 (List.range tasks.length).length).map
        (fun c => (c, tasks.length)) = _
  rw [show progressCalls [] = [] from rfl, List.nil_append, List.length_range]

theorem C6_witness :
    (1 : Int) ≤ 2 ∧ schedValid (fun _ l => l) ∧ 3 < 5 ∧
      ∃ (r : BatchResult) (stF : RunState),
        TS.asyncBatch
          [TaskSpec.resolve (JSValue.num 1),
            TaskSpec.reject (JSValue.error "X"),
            TaskSpec.resolve (JSValue.num 3)]
          { concurrency := 2, failFast := false } (fun _ l => l) 5 =
          some (r, stF) ∧
        progressCalls stF.events =
          (List.range' 1 3).map (fun c => (c, 3)) :=
  ⟨by decide, fun _ l => List.Perm.refl l, by decide,
    C6_progress_trace _ 2 (fun _ l => l) 5 (by decide)
      (fun _ l => List.Perm.refl l) (by decide)⟩

/-- Claim C10 (confirmed).  A task that resolves with a value that is itself
an `Error` instance is indistinguishable from a failed task in the all-failed
check: with `failFast = false`, when every task resolves successfully but
every resolved value is an `Error` instance, the run throws the aggregate
all-failed error instead of returning the values. -/
theorem C10_error_values_trigger_aggregate (tasks : List TaskSpec)
    (conc : Int) (sched : Nat → List Nat → List Nat) (fuel : Nat)
    (hconc : 1 ≤ conc) (hsched : schedValid sched)
    (hfuel : tasks.length < fuel)
    (hall : ∀ t ∈ tasks, ∃ m, t = TaskSpec.resolve (JSValue.error m)) :
    ∃ stF,
      TS.asyncBatch tasks { concurrency := conc, failFast := false } sched
        fuel =
        some (BatchResult.thrown (JSValue.error
          ("All tasks failed to execute: " ++
            String.intercalate ", "
              (tasks.map fun t => errMessage (outVal t)))), stF) ∧
      stF.failed = false := by
  obtain ⟨stF, h1, h2, _⟩ := runFull_all_errors hconc hsched hfuel
    (fun i _ => Or.inl rfl)
    (fun t ht => by
      obtain ⟨m, rfl⟩ := hall t ht
      rfl)
  exact ⟨stF, h1, h2⟩

theorem C10_witness :
    (1 : Int) ≤ 5 ∧ schedValid (fun _ l => l) ∧ 2 < 3 ∧
      (∀ t ∈ [TaskSpec.resolve (JSValue.error "a"),
          TaskSpec.resolve (JSValue.error "b")],
        ∃ m, t = TaskSpec.resolve (JSValue.error m)) ∧
      ∃ stF,
        TS.asyncBatch
          [TaskSpec.resolve (JSValue.error "a"),
            TaskSpec.resolve (JSValue.error "b")]
          { concurrency := 5, failFast := false } (fun _ l => l) 3 =
          some (BatchResult.thrown (JSValue.error
            ("All tasks failed to execute: " ++
              String.intercalate ", "
                ([TaskSpec.resolve (JSValue.error "a"),
                  TaskSpec.resolve (JSValue.error "b")].map
                    fun t => errMessage (outVal t)))), stF) ∧
        stF.failed = false :=
  ⟨by decide, fun _ l => List.Perm.refl l, by decide,
    by
      intro t ht
      fin_cases ht
      · exact ⟨"a", rfl⟩
      · exact ⟨"b", rfl⟩,
    C10_error_values_trigger_aggregate _ 5 (fun _ l => l) 3 (by decide)
      (fun _ l => List.Perm.refl l) (by decide)
      (by
        intro t ht
        fin_cases ht
        · exact ⟨"a", rfl⟩
        · exact ⟨"b", rfl⟩)⟩

/-- Claim C4 (confirmed).  Whenever a run returns a result list, its length
equals the number of input tasks, every successful task's value appears at
that task's original index, and with `failFast = false` each failed task's
index holds its (coerced) error value — a mixed list when some but not all
tasks fail. -/
theorem C4_results_index_aligned (tasks : List TaskSpec)
    (options : AsyncBatchOptions) (sched : Nat → List Nat → List Nat)
    (fuel : Nat) (hconc : 1 ≤ options.concurrency)
    (hsched : schedValid sched) (hfuel : tasks.length < fuel)
    (res : List (Option JSValue)) (stT : RunState)
    (hrun : TS.asyncBatch tasks options sched fuel =
      some (BatchResult.ok res, stT)) :
    res.length = tasks.length ∧
    (∀ (i : Nat) (v : JSValue), tasks[i]? = some (TaskSpec.resolve v) →
      res[i]? = some (some v)) ∧
    (options.failFast = false →
      ∀ (i : Nat) (e : JSValue), tasks[i]? = some (TaskSpec.reject e) →
        res[i]? = some (some (coerceError e))) := by
  obtain ⟨conc, ff⟩ := options
  simp only at hconc hrun ⊢
  have hres : ∀ i ∈ List.range tasks.length,
      ff = false ∨ ∃ v, tasks[i]? = some (TaskSpec.resolve v) := by
    cases ff with
    | false => exact fun i _ => Or.inl rfl
    | true =>
        by_cases hex : ∃ i0 ∈ List.range tasks.length, ∃ e,
            tasks[i0]? = some (TaskSpec.reject e)
        · exfalso
          obtain ⟨e, stT2, hthrown⟩ := runLoop_reject hconc hsched fuel 0
            (List.range tasks.length) (initSt tasks.length)
            (by rw [List.length_range]; omega)
            (List.nodup_range tasks.length)
            (fun i _ => List.not_mem_nil i)
            (fun i hi => List.mem_range.mp hi) rfl hex
          rw [TS.asyncBatch] at hrun
          rw [hthrown] at hrun
          simp at hrun
        · intro i hi
          right
          cases htk : tasks[i]? with
          | none =>
              rw [List.getElem?_eq_none_iff] at htk
              rw [List.mem_range] at hi
              omega
          | some t =>
              cases t with
              | resolve v => exact ⟨v, rfl⟩
              | reject e => exact absurd ⟨i, hi, e, htk⟩ hex
  obtain ⟨stF, d1, d2, d3, d4, d5, d6, d7⟩ :=
    runLoop_clean hconc hsched fuel 0 (List.range tasks.length)
      (initSt tasks.length) (by rw [List.length_range]; omega)
      (List.nodup_range tasks.length)
      (fun i _ => List.not_mem_nil i) hres rfl
  rw [TS.asyncBatch] at hrun
  rw [d1] at hrun
  have heq := Option.some.inj hrun
  have hfin : TS.finishRun stF = BatchResult.ok res := congrArg Prod.fst heq
  have hres2 : res = stF.results := by
    by_cases hc : (stF.results.all fun slot =>
        match slot with
        | some v => isError v
        | none => true) = true
    · rw [finishRun_thrown hc] at hfin
      exact absurd hfin (by simp)
    · rw [finishRun_ok hc] at hfin
      exact (BatchResult.ok.inj hfin).symm
  have hlenF : stF.results.length = tasks.length := by
    rw [d4]
    show (List.replicate tasks.length (none : Option JSValue)).length =
      tasks.length
    exact List.length_replicate tasks.length none
  have hslot : ∀ i, i < tasks.length →
      res[i]? = some (some (settledValue tasks i)) := by
    intro i hi
    rw [hres2, d5 i (by
      show i < (List.replicate tasks.length (none : Option JSValue)).length
      rw [List.length_replicate]
      omega)]
    rw [if_pos (List.mem_range.mpr hi)]
  refine ⟨by rw [hres2, hlenF], ?_, ?_⟩
  · intro i v hv
    have hi : i < tasks.length := by
      by_contra hni
      rw [List.getElem?_eq_none (by omega)] at hv
      cases hv
    rw [hslot i hi, settledValue, hv]
  · intro _ i e he
    have hi : i < tasks.length := by
      by_contra hni
      rw [List.getElem?_eq_none (by omega)] at he
      cases he
    rw [hslot i hi, settledValue, he]

theorem C4_witness :
    (1 : Int) ≤ 2 ∧ schedValid (fun _ l => l) ∧
      [TaskSpec.resolve (JSValue.num 1), TaskSpec.reject (JSValue.error "X"),
        TaskSpec.resolve (JSValue.num 3)].length < 5 ∧
      TS.asyncBatch
        [TaskSpec.resolve (JSValue.num 1),
          TaskSpec.reject (JSValue.error "X"),
          TaskSpec.resolve (JSValue.num 3)]
        { concurrency := 2, failFast := false } (fun _ l => l) 5 =
        some (BatchResult.ok
          [some (JSValue.num 1), some (JSValue.error "X"),
            some (JSValue.num 3)],
          { results := [some (JSValue.num 1), some (JSValue.error "X"),
              some (JSValue.num 3)]
            completed := 3
            failed := false
            firstError := none
            processing := [2, 1, 0]
            events := [Event.invoke 0, Event.invoke 1, Event.settle 0,
              Event.progress 1 3, Event.settle 1, Event.progress 2 3,
              Event.invoke 2, Event.settle 2, Event.progress 3 3] }) ∧
      ([some (JSValue.num 1), some (JSValue.error "X"),
          some (JSValue.num 3)].length =
        [TaskSpec.resolve (JSValue.num 1),
          TaskSpec.reject (JSValue.error "X"),
          TaskSpec.resolve (JSValue.num 3)].length ∧
      (∀ (i : Nat) (v : JSValue),
        [TaskSpec.resolve (JSValue.num 1),
          TaskSpec.reject (JSValue.error "X"),
          TaskSpec.resolve (JSValue.num 3)][i]? =
            some (TaskSpec.resolve v) →
        ([some (JSValue.num 1), some (JSValue.error "X"),
          some (JSValue.num 3)] : List (Option JSValue))[i]? =
            some (some v)) ∧
      ((AsyncBatchOptions.mk 2 false).failFast = false →
        ∀ (i : Nat) (e : JSValue),
          [TaskSpec.resolve (JSValue.num 1),
            TaskSpec.reject (JSValue.error "X"),
            TaskSpec.resolve (JSValue.num 3)][i]? =
              some (TaskSpec.reject e) →
          ([some (JSValue.num 1), some (JSValue.error "X"),
            some (JSValue.num 3)] : List (Option JSValue))[i]? =
              some (some (coerceError e)))) :=
  ⟨by decide, fun _ l => List.Perm.refl l, by decide, by rfl,
    C4_results_index_aligned
      [TaskSpec.resolve (JSValue.num 1), TaskSpec.reject (JSValue.error "X"),
        TaskSpec.resolve (JSValue.num 3)]
      { concurrency := 2, failFast := false } (fun _ l => l) 5 (by decide)
      (fun _ l => List.Perm.refl l) (by decide)
      [some (JSValue.num 1), some (JSValue.error "X"), some (JSValue.num 3)]
      { results := [some (JSValue.num 1), some (JSValue.error "X"),
          some (JSValue.num 3)]
        completed := 3
        failed := false
        firstError := none
        processing := [2, 1, 0]
        events := [Event.invoke 0, Event.invoke 1, Event.settle 0,
          Event.progress 1 3, Event.settle 1, Event.progress 2 3,
          Event.invoke 2, Event.settle 2, Event.progress 3 3] }
      (by rfl)⟩

/-- Claim C7 (confirmed).  With `failFast = true`, once the abort flag is
set: (1) every task of the same wave that settles afterwards has its outcome
discarded — its result is not written into the result list, the completed
counter is not incremented, and `onProgress` is not invoked for it; and
(2) no further task is dispatched — as soon as a wave ends with the abort
flag set, the loop throws `firstError` immediately, the remaining queue is
never dispatched, and the final state of the run is exactly the state left
by the aborting wave (no further invocation, settlement or progress
events). -/
theorem C7_abort_discards_and_stops :
    (∀ (tasks : List TaskSpec) (total : Nat) (st : RunState) (i : Nat),
      st.failed = true →
      (TS.settleTask tasks true total st i).results = st.results ∧
      (TS.settleTask tasks true total st i).completed = st.completed ∧
      progressCalls (TS.settleTask tasks true total st i).events =
        progressCalls st.events) ∧
    (∀ (tasks : List TaskSpec) (conc : Int)
      (sched : Nat → List Nat → List Nat) (n waveNo : Nat)
      (queue : List Nat) (st : RunState) (e : JSValue),
      ¬ ((queue.isEmpty || st.failed) = true) →
      ¬ (min queue.length conc.toNat = 0) →
      (TS.runWave tasks true tasks.length
        (sched waveNo (queue.take (min queue.length conc.toNat)))
        (queue.take (min queue.length conc.toNat)) st).failed = true →
      (TS.runWave tasks true tasks.length
        (sched waveNo (queue.take (min queue.length conc.toNat)))
        (queue.take (min queue.length conc.toNat)) st).firstError = some e →
      TS.runLoop tasks conc true sched (n + 1) waveNo queue st =
        some (BatchResult.thrown e,
          TS.runWave tasks true tasks.length
            (sched waveNo (queue.take (min queue.length conc.toNat)))
            (queue.take (min queue.length conc.toNat)) st)) := by
  constructor
  · intro tasks total st i hf
    obtain ⟨h1, h2, h3, _⟩ := settleTask_discard tasks total i hf
    refine ⟨h1, h2, ?_⟩
    rw [h3, progressCalls_append]
    rw [show progressCalls [Event.settle i] = [] from rfl, List.append_nil]
  · intro tasks conc sched n waveNo queue st e hcond hk hfail hfe
    rw [runLoop_succ, if_neg hcond, if_neg hk, if_pos hfail, hfe]

theorem C7_witness :
    (({ results := [none, none], completed := 0, failed := true,
        firstError := some (JSValue.error "A"), processing := [0],
        events := [] } : RunState).failed = true ∧
      (TS.settleTask
        [TaskSpec.reject (JSValue.error "A"),
          TaskSpec.resolve (JSValue.num 2)] true 2
        { results := [none, none], completed := 0, failed := true,
          firstError := some (JSValue.error "A"), processing := [0],
          events := [] } 1).results = [none, none] ∧
      (TS.settleTask
        [TaskSpec.reject (JSValue.error "A"),
          TaskSpec.resolve (JSValue.num 2)] true 2
        { results := [none, none], completed := 0, failed := true,
          firstError := some (JSValue.error "A"), processing := [0],
          events := [] } 1).completed = 0) ∧
      TS.runLoop
        [TaskSpec.reject (JSValue.error "A"),
          TaskSpec.reject (JSValue.error "B")] 5 true (fun _ l => l)
        (2 + 1) 0 [0, 1] (initSt 2) =
        some (BatchResult.thrown (JSValue.error "B"),
          TS.runWave
            [TaskSpec.reject (JSValue.error "A"),
              TaskSpec.reject (JSValue.error "B")] true 2
            ((fun _ l => l) 0 ([0, 1].take (min [0, 1].length (5 : Int).toNat)))
            ([0, 1].take (min [0, 1].length (5 : Int).toNat)) (initSt 2)) :=
  ⟨⟨rfl,
    (C7_abort_discards_and_stops.1
      [TaskSpec.reject (JSValue.error "A"), TaskSpec.resolve (JSValue.num 2)]
      2
      { results := [none, none], completed := 0, failed := true,
        firstError := some (JSValue.error "A"), processing := [0],
        events := [] } 1 rfl).1,
    (C7_abort_discards_and_stops.1
      [TaskSpec.reject (JSValue.error "A"), TaskSpec.resolve (JSValue.num 2)]
      2
      { results := [none, none], completed := 0, failed := true,
        firstError := some (JSValue.error "A"), processing := [0],
        events := [] } 1 rfl).2.1⟩,
    C7_abort_discards_and_stops.2
      [TaskSpec.reject (JSValue.error "A"), TaskSpec.reject (JSValue.error "B")]
      5 (fun _ l => l) 2 0 [0, 1] (initSt 2) (JSValue.error "B")
      (by decide) (by decide) (by rfl) (by rfl)⟩

/-- Claim C8 (confirmed).  For every run: the observable event trace is a
concatenation of wave segments, each consisting of a block of at most
`concurrency` task invocations followed only by the settlements of exactly
those invoked tasks (so the runner waits for the whole admitted wave to
settle before admitting any further task); the task invocations across the
whole run are `0, 1, ..., d-1` in strict input-index order; and at every
instant (every prefix of the trace) at most `concurrency` tasks are
in flight.  With `concurrency = 1` every segment invokes a single task, so
the tasks execute strictly sequentially in input order. -/
theorem C8_bounded_wave_dispatch (tasks : List TaskSpec) (conc : Int)
    (ff : Bool) (sched : Nat → List Nat → List Nat) (fuel : Nat)
    (hconc : 1 ≤ conc) (hsched : schedValid sched)
    (hfuel : tasks.length < fuel) :
    ∃ (r : BatchResult) (stF : RunState) (segs : List (List Event))
      (d : Nat),
      TS.asyncBatch tasks { concurrency := conc, failFast := ff } sched
        fuel = some (r, stF) ∧
      stF.events = segs.flatten ∧
      (∀ seg ∈ segs, WaveSeg conc.toNat seg) ∧
      d ≤ tasks.length ∧
      invokesOf stF.events = List.range d ∧
      (∀ nn, inflight (stF.events.take nn) ≤ conc.toNat) := by
  obtain ⟨r, stF, segs, d, h1, h2, h3, h4, h5⟩ :=
    runLoop_traces hconc hsched fuel 0 (List.range tasks.length)
      (initSt tasks.length) (by rw [List.length_range]; omega)
      (List.nodup_range tasks.length)
      (fun i _ => List.not_mem_nil i) rfl
  have hev : stF.events = segs.flatten := by
    rw [h2]
    show [] ++ segs.flatten = segs.flatten
    rw [List.nil_append]
  rw [List.length_range] at h4
  refine ⟨r, stF, segs, d, by rw [TS.asyncBatch]; exact h1, hev, h3, h4,
    ?_, ?_⟩
  · rw [hev, h5, List.take_range]
    rw [min_eq_left h4]
  · intro nn
    rw [hev]
    exact waveSegs_bound segs h3 nn

theorem C8_witness :
    (1 : Int) ≤ 2 ∧ schedValid (fun _ l => l) ∧ 3 < 5 ∧
      ∃ (r : BatchResult) (stF : RunState) (segs : List (List Event))
        (d : Nat),
        TS.asyncBatch
          [TaskSpec.resolve (JSValue.num 1),
            TaskSpec.resolve (JSValue.num 2),
            TaskSpec.resolve (JSValue.num 3)]
          { concurrency := 2, failFast := false } (fun _ l => l) 5 =
          some (r, stF) ∧
        stF.events = segs.flatten ∧
        (∀ seg ∈ segs, WaveSeg (2 : Int).toNat seg) ∧
        d ≤ 3 ∧
        invokesOf stF.events = List.range d ∧
        (∀ nn, inflight (stF.events.take nn) ≤ (2 : Int).toNat) :=
  ⟨by decide, fun _ l => List.Perm.refl l, by decide,
    C8_bounded_wave_dispatch
      [TaskSpec.resolve (JSValue.num 1), TaskSpec.resolve (JSValue.num 2),
        TaskSpec.resolve (JSValue.num 3)]
      2 false (fun _ l => l) 5 (by decide)
      (fun _ l => List.Perm.refl l) (by decide)⟩
